import Mathlib

/-!
Verification development for the Dronetic synthesizer sketch
(src/Arduino/Dronetic/Dronetic/Dronetic.ino).

The definitions below are a shallow embedding of the oscillator/mixing
core of the sketch.  Machine integers of the AVR target are modelled as
`Nat`/`Int` with explicit reductions modulo 2^8 or 2^16 at the points
where the C++ code truncates (byte stores, `word` arithmetic, `char`
accumulation).
-/

set_option maxRecDepth 4096

/-! ### Play-state machine of DroneSynth (lines 840-848, 944-961, 1143-1153) -/

/-- PlayState mirrors the `playState` enum of `DroneSynth`. -/
inductive PlayState where
  | STOPPED
  | FADE_IN
  | PLAYING
  | FADE_OUT
deriving DecidableEq

/-- SynthState holds the fields of `DroneSynth` that the play-state
machine reads and writes: `playStatus` and the master volume `vol`
(a byte, 0..255). -/
structure SynthState where
  status : PlayState
  vol    : Nat
deriving DecidableEq

/-- Modelled from the spec: `setVol` (inherited from the voice/synth
framework, which is not part of this source file) stores its argument as
the synth's master volume. -/
def setVol (s : SynthState) (v : Nat) : SynthState :=
  { s with vol := v }

/-- DroneSynth.start (lines 1143-1147). -/
def DroneSynth.start (s : SynthState) : SynthState :=
  if s.status ≠ PlayState.PLAYING then { s with status := PlayState.FADE_IN } else s

/-- DroneSynth.stop (lines 1149-1153). -/
def DroneSynth.stop (s : SynthState) : SynthState :=
  if s.status ≠ PlayState.STOPPED then { s with status := PlayState.FADE_OUT } else s

/-- DroneSynth.dynamics (lines 944-961): the fade ramp update.  The call
to `super::dynamics()` only updates the voices, not `playStatus`/`vol`. -/
def DroneSynth.dynamics (s : SynthState) : SynthState :=
  if s.status = PlayState.FADE_IN then
    if s.vol = 255 then { s with status := PlayState.PLAYING }
    else setVol s (s.vol + 1)
  else if s.status = PlayState.FADE_OUT then
    if s.vol = 0 then { s with status := PlayState.STOPPED }
    else setVol s (s.vol - 1)
  else s

/-! ### Stereo mix of DroneSynth.output (lines 1118-1141) -/

/-- Arithmetic shift right by two bit positions on a two's-complement
integer: the effect of `sum >> 2` on the (16-bit) `int sum` of
`DroneSynth::output`.  For the attainable range `|sum| <= 508` the
16-bit representation is exact, so the shift acts on the mathematical
integer. -/
def asr2 (z : Int) : Int :=
  match z with
  | Int.ofNat n => Int.ofNat (n >>> 2)
  | Int.negSucc n => Int.negSucc (n >>> 2)

/-- DroneSynth.output per-sample mix (lines 1128-1139):
`sum = chan; sum *= 3; sum += lead; chan = sum >> 2`. -/
def mixSample (chan lead : Int) : Int :=
  asr2 (3 * chan + lead)

/-! ### The note period table (lines 352-372) -/

/-- NotePeriods: the 48-entry table of quantum oscillator periods,
4 octaves of 12 notes. -/
def NotePeriods : List Nat :=
  [360, 346, 320, 300, 288, 270, 256, 240, 225, 214, 200, 192,
   180, 173, 160, 150, 144, 135, 128, 120, 113, 107, 100, 96,
   90, 86, 80, 75, 72, 67, 64, 60, 56, 54, 50, 48,
   45, 43, 40, 38, 36, 34, 32, 30, 28, 27, 25, 24]

/-- Table lookup `pgm_read_word_near(periods + 2*n)` of `setNote`. -/
def notePeriod (n : Nat) : Nat :=
  NotePeriods.getD n 0

/-! ### DroneOscSection state (lines 376-404) -/

/-- One oscillator slot of a `DroneOscSection`: the per-oscillator
entries of the arrays `edgIdx`, `edgeDC`, `edgLen`, `edgVal`, `note`.
`edgIdx`, `edgeDC`, `edgLen0/1` and `note` are bytes; `edgVal0/1` are
signed chars. -/
structure OscSlot where
  edgIdx  : Nat
  edgeDC  : Nat
  edgLen0 : Nat
  edgLen1 : Nat
  edgVal0 : Int
  edgVal1 : Int
  note    : Nat
deriving DecidableEq

/-- Section-wide state of a `DroneOscSection`. -/
structure OscSection where
  numOsc : Nat
  curOsc : Nat
  ampOsc : Int
  pW     : Nat
  freeze : Bool
  slots  : Nat → OscSlot

/-- Pointwise update of the slot array at index `t`. -/
def updSlot (f : Nat → OscSlot) (t : Nat) (sl : OscSlot) : Nat → OscSlot :=
  fun i => if i = t then sl else f i

/-- DroneOscSection.setSteps (lines 679-684). -/
def setSteps (s : OscSection) (t n0 n1 : Nat) : OscSection :=
  let sl := { s.slots t with
              edgLen0 := n0
              edgLen1 := n1
              edgVal1 := if n0 ≠ 0 ∧ n1 ≠ 0 then -s.ampOsc else s.ampOsc }
  { s with slots := updSlot s.slots t sl }

/-- Arithmetic core of DroneOscSection.calcEdges (lines 613-639): the
final `(posSteps._.lsb, negSteps._.lsb)` handed to `setSteps`, given the
pulse width `pW` and the `word` argument `period`.  `Word.val` is a
16-bit quantity, `.msb`/`.lsb` are its high and low bytes. -/
def calcEdgesPair (pW period : Nat) : Nat × Nat :=
  let pos0 := (period * pW) % 65536
  let pos1 := pos0 / 256
  let pos2 := if pos1 = 0 then 1 else pos1
  let neg0 := (period + 65536 - pos2) % 65536
  if 255 < neg0 then
    (((pos2 + (neg0 - 255)) % 65536) % 256, 255)
  else
    (pos2 % 256, neg0 % 256)

/-- DroneOscSection.calcEdges (lines 613-639) as a state transformer.
Note that the `period <= 1` branch of the source performs
`setSteps(t,0,0)` but does not return, so the computation below it runs
unconditionally and overwrites those zero edge lengths. -/
def calcEdges (s : OscSection) (t : Nat) (period : Nat) : OscSection :=
  let s1 := if period ≤ 1 then setSteps s t 0 0 else s
  let pr := calcEdgesPair s1.pW period
  setSteps s1 t pr.1 pr.2

/-- Wrapping loop of DroneOscSection.setNote (lines 568-569):
`while (noteNum >= numNotes) noteNum -= 12` with `numNotes = 48`. -/
def wrapNote (n : Nat) : Nat :=
  if n < 48 then n else wrapNote (n - 12)
termination_by n
decreasing_by omega

/-- One iteration of the phase-lock loop of setNote (lines 580-587). -/
def lockStep (t : Nat) (s : OscSection) (i : Nat) : OscSection :=
  if i = t then s
  else if (s.slots t).note ≠ (s.slots i).note then s
  else
    let sl := { s.slots t with
                edgIdx := (s.slots i).edgIdx
                edgeDC := (s.slots i).edgeDC }
    { s with slots := updSlot s.slots t sl }

/-- DroneOscSection.setNote (lines 555-589).  `255` is `NoNote`. -/
def setNote (s : OscSection) (t noteNum : Nat) : OscSection :=
  if s.freeze then s
  else if noteNum = 255 then
    let s1 := { s with slots := updSlot s.slots t ({ s.slots t with edgIdx := 0 }) }
    let s2 := setSteps s1 t 0 0
    { s2 with slots := updSlot s2.slots t ({ s2.slots t with note := 255 }) }
  else
    let w := wrapNote noteNum
    let s1 := { s with slots := updSlot s.slots t ({ s.slots t with note := w }) }
    let s2 := calcEdges s1 t (notePeriod w)
    (List.range s2.numOsc).foldl (lockStep t) s2

/-- DroneOscSection.setNumOsc (lines 591-611). -/
def setNumOsc (s : OscSection) (n : Nat) : OscSection :=
  let n1 := if n = 0 then 1 else n
  let n2 := if 4 < n1 then 4 else n1
  let amp : Int := 127 / n2
  let s1 := { s with
    numOsc := n2
    curOsc := if n2 ≤ s.curOsc then n2 - 1 else s.curOsc
    ampOsc := amp }
  (List.range n2).foldl
    (fun acc i =>
      let sl := { acc.slots i with
                  edgVal0 := amp
                  edgVal1 :=
                    if (acc.slots i).edgLen0 ≠ 0 ∧ (acc.slots i).edgLen1 ≠ 0
                    then -amp else amp }
      { acc with slots := updSlot acc.slots i sl })
    s1

/-- DroneOscSection.setPW (lines 667-677). -/
def setPW (s : OscSection) (x : Nat) : OscSection :=
  let x1 := if x < 1 then 1 else x
  let x2 := if 128 < x1 then 128 else x1
  let s1 := { s with pW := x2 }
  (List.range s1.numOsc).foldl
    (fun acc i => calcEdges acc i ((acc.slots i).edgLen0 + (acc.slots i).edgLen1))
    s1

/-! ### Sample generation: DroneOscSection.output (lines 513-531) -/

/-- One sample tick of a single oscillator slot: the loop body
`if (--edgeDC[t] == 0) { edgIdx[t] ^= 1; edgeDC[t] = edgLen[t][edgIdx[t]]; }
outVal += edgVal[t][edgIdx[t]]`.  Returns the stepped slot and the value
it adds to `outVal`.  `edgeDC` is a byte, so the pre-decrement wraps
modulo 256. -/
def oscStep (sl : OscSlot) : OscSlot × Int :=
  let dc := (sl.edgeDC + 255) % 256
  if dc = 0 then
    let idx := sl.edgIdx ^^^ 1
    ({ sl with edgIdx := idx, edgeDC := if idx = 0 then sl.edgLen0 else sl.edgLen1 },
     if idx = 0 then sl.edgVal0 else sl.edgVal1)
  else
    ({ sl with edgeDC := dc },
     if sl.edgIdx = 0 then sl.edgVal0 else sl.edgVal1)

/-- Reduction of the `char outVal` accumulator to a signed byte. -/
def toChar (z : Int) : Int :=
  (z + 128) % 256 - 128

/-- One tick of DroneOscSection.output: every slot `t < numOsc` is
stepped independently and the contributions are summed into the `char`
accumulator. -/
def sectionTick (s : OscSection) : OscSection × Int :=
  ({ s with slots := fun i => if i < s.numOsc then (oscStep (s.slots i)).1 else s.slots i },
   toChar (((List.range s.numOsc).map (fun i => (oscStep (s.slots i)).2)).sum))

/-- The value slot `t` will add to the accumulator on the next tick. -/
def slotContrib (s : OscSection) (t : Nat) : Int :=
  (oscStep (s.slots t)).2

/-- State of the section after `k` output ticks. -/
def sectionRun (s : OscSection) (k : Nat) : OscSection :=
  Nat.iterate (fun x => (sectionTick x).1) k s

/-! ### DroneOscSection.setPhase (lines 649-665) -/

/-- Fuelled form of the normalization loop
`while (phase >= period) phase -= period` of setPhase.  `none` means the
loop has not terminated within `fuel` iterations. -/
def phaseLoopF : Nat → Nat → Nat → Option Nat
  | 0, period, phase =>
      if phase < period then some phase else none
  | fuel + 1, period, phase =>
      if phase < period then some phase
      else phaseLoopF fuel period (phase - period)

/-- DroneOscSection.setPhase for a slot with edge lengths `n0`, `n1`:
the `(edgIdx, edgeDC)` pair it installs, or `none` if the normalization
loop fails to terminate within `fuel` iterations. -/
def setPhaseResult (n0 n1 phase fuel : Nat) : Option (Nat × Nat) :=
  match phaseLoopF fuel (n0 + n1) phase with
  | none => none
  | some p => if p < n0 then some (0, n0 - p) else some (1, (n0 + n1) - p)

/-- Slot at the start of its high edge: `edgIdx = 0`,
`edgeDC = edgLen0`.  The edge values and note are irrelevant to phase
stepping and are fixed to zero. -/
def startSlot (n0 n1 : Nat) : OscSlot :=
  { edgIdx := 0, edgeDC := n0, edgLen0 := n0, edgLen1 := n1,
    edgVal0 := 0, edgVal1 := 0, note := 0 }

/-- Slot state after `k` sample ticks. -/
def iterSlot (sl : OscSlot) (k : Nat) : OscSlot :=
  Nat.iterate (fun x => (oscStep x).1) k sl

/-! ### Helper lemmas -/

/-- The arithmetic shift `sum >> 2` agrees with floor division by 4. -/
theorem asr2_eq_fdiv (z : Int) : asr2 z = Int.fdiv z 4 := by
  cases z with
  | ofNat n =>
      cases n with
      | zero => rfl
      | succ m =>
          show Int.ofNat ((m + 1) >>> 2) = Int.fdiv (Int.ofNat (m + 1)) 4
          rw [Nat.shiftRight_eq_div_pow]
          rfl
  | negSucc n =>
      show Int.negSucc (n >>> 2) = Int.fdiv (Int.negSucc n) 4
      rw [Nat.shiftRight_eq_div_pow]
      rfl

/-! ### Claim theorems -/

/-- C8: `start()` maps STOPPED and FADE_OUT to FADE_IN and is a no-op
when the status is already PLAYING; `stop()` maps every non-STOPPED
state to FADE_OUT and is a no-op when already STOPPED.  In particular
`start()` while PLAYING and `stop()` while STOPPED leave the state
unchanged. -/
theorem start_stop_transitions (s : SynthState) :
    ((s.status = PlayState.STOPPED ∨ s.status = PlayState.FADE_OUT) →
       DroneSynth.start s = { s with status := PlayState.FADE_IN }) ∧
    (s.status = PlayState.PLAYING → DroneSynth.start s = s) ∧
    (s.status ≠ PlayState.STOPPED →
       DroneSynth.stop s = { s with status := PlayState.FADE_OUT }) ∧
    (s.status = PlayState.STOPPED → DroneSynth.stop s = s) := by
  obtain ⟨st, v⟩ := s
  refine ⟨?_, ?_, ?_, ?_⟩ <;> intro h <;> cases st <;>
    simp_all [DroneSynth.start, DroneSynth.stop]

/-- Witness for C8 at the concrete states STOPPED and PLAYING. -/
theorem start_stop_transitions_witness :
    DroneSynth.start { status := PlayState.STOPPED, vol := 5 } =
      { status := PlayState.FADE_IN, vol := 5 } ∧
    DroneSynth.stop { status := PlayState.STOPPED, vol := 5 } =
      { status := PlayState.STOPPED, vol := 5 } ∧
    DroneSynth.start { status := PlayState.PLAYING, vol := 9 } =
      { status := PlayState.PLAYING, vol := 9 } := by
  refine ⟨?_, ?_, ?_⟩
  · exact (start_stop_transitions _).1 (Or.inl rfl)
  · exact (start_stop_transitions _).2.2.2 rfl
  · exact (start_stop_transitions _).2.1 rfl

/-- C9: the final sample on each channel is
`(3*droneChannel + leadChannel) >> 2`, an arithmetic shift that computes
exact floor division by 4; in particular droneChannel 100 and
leadChannel 40 yield 85. -/
theorem mix_formula :
    (∀ chan lead : Int, mixSample chan lead = Int.fdiv (3 * chan + lead) 4) ∧
    mixSample 100 40 = 85 := by
  constructor
  · intro chan lead
    exact asr2_eq_fdiv (3 * chan + lead)
  · decide

/-- Concrete section used for C2: a single active oscillator slot that
is silent (both edge lengths 0), as any slot is after a reset. -/
def sC2 : OscSection :=
  { numOsc := 1, curOsc := 0, ampOsc := 127, pW := 128, freeze := false,
    slots := fun _ =>
      { edgIdx := 0, edgeDC := 37, edgLen0 := 0, edgLen1 := 0,
        edgVal0 := 127, edgVal1 := 127, note := 255 } }

/-- C2: evaluation of the code at the failing input.  `calcEdges` with
period 0 (a silenced slot) does not leave the slot silenced: the
`period <= 1` branch performs `setSteps(t,0,0)` but does not return, so
the slot acquires edge lengths (1,255) — a sounding 256-sample period —
instead of (0,0); period 1 likewise yields (1,0). -/
theorem calcEdges_low_period_not_silenced :
    calcEdgesPair 64 0 = (1, 255) ∧
    calcEdgesPair 64 1 = (1, 0) ∧
    calcEdgesPair 128 0 = (1, 255) ∧
    ((calcEdges sC2 0 0).slots 0).edgLen0 = 1 ∧
    ((calcEdges sC2 0 0).slots 0).edgLen1 = 255 := by
  decide

/-- Concrete section used for C3: one active slot, silent, so its
total period is 0. -/
def sC3 : OscSection :=
  { numOsc := 1, curOsc := 0, ampOsc := 127, pW := 128, freeze := false,
    slots := fun _ =>
      { edgIdx := 0, edgeDC := 37, edgLen0 := 0, edgLen1 := 0,
        edgVal0 := 127, edgVal1 := 127, note := 255 } }

/-- C3: evaluation of the code at the failing input.  `setPW(64)` on a
section whose only active slot is silent stores the clamped pulse width
but does not preserve the slot's total period: the silent slot's period
changes from 0 to 256 (edge lengths (1,255)), so the slot acquires a
pitch. -/
theorem setPW_silent_slot_period_bug :
    (sC3.slots 0).edgLen0 + (sC3.slots 0).edgLen1 = 0 ∧
    (setPW sC3 64).pW = 64 ∧
    ((setPW sC3 64).slots 0).edgLen0 + ((setPW sC3 64).slots 0).edgLen1 = 256 := by
  decide

/-- During FADE_IN, `dynamics` ticks raise the volume one step at a
time until it reaches 255. -/
theorem fadeIn_ramp (k : Nat) :
    ∀ v, v + k = 255 →
      Nat.iterate DroneSynth.dynamics k { status := PlayState.FADE_IN, vol := v } =
        { status := PlayState.FADE_IN, vol := 255 } := by
  induction k with
  | zero =>
      intro v hv
      simp only [Nat.add_zero] at hv
      simp [hv]
  | succ m ih =>
      intro v hv
      rw [Function.iterate_succ_apply]
      have hstep : DroneSynth.dynamics { status := PlayState.FADE_IN, vol := v } =
          { status := PlayState.FADE_IN, vol := v + 1 } := by
        simp [DroneSynth.dynamics, setVol]
        omega
      rw [hstep]
      exact ih (v + 1) (by omega)

/-- During FADE_OUT, `dynamics` ticks lower the volume one step at a
time until it reaches 0. -/
theorem fadeOut_ramp (k : Nat) :
    ∀ v, v = k →
      Nat.iterate DroneSynth.dynamics k { status := PlayState.FADE_OUT, vol := v } =
        { status := PlayState.FADE_OUT, vol := 0 } := by
  induction k with
  | zero =>
      intro v hv
      simp [hv]
  | succ m ih =>
      intro v hv
      rw [Function.iterate_succ_apply]
      have hstep : DroneSynth.dynamics { status := PlayState.FADE_OUT, vol := v } =
          { status := PlayState.FADE_OUT, vol := v - 1 } := by
        simp [DroneSynth.dynamics, setVol]
        omega
      rw [hstep]
      exact ih (v - 1) (by omega)

/-- C7: in FADE_IN each `dynamics` call either increments `vol` by 1 or,
at `vol = 255`, switches the status to PLAYING, so the volume is
non-decreasing tick-over-tick and after `256 - vol` ticks the state is
PLAYING at volume 255; symmetrically in FADE_OUT the volume decrements
to 0 and the status becomes STOPPED after `vol + 1` ticks. -/
theorem fade_monotone (s : SynthState) (hv : s.vol ≤ 255) :
    (s.status = PlayState.FADE_IN →
       (s.vol < 255 →
          DroneSynth.dynamics s = { status := PlayState.FADE_IN, vol := s.vol + 1 }) ∧
       (s.vol = 255 →
          DroneSynth.dynamics s = { status := PlayState.PLAYING, vol := 255 }) ∧
       s.vol ≤ (DroneSynth.dynamics s).vol ∧
       Nat.iterate DroneSynth.dynamics (256 - s.vol) s =
         { status := PlayState.PLAYING, vol := 255 }) ∧
    (s.status = PlayState.FADE_OUT →
       (0 < s.vol →
          DroneSynth.dynamics s = { status := PlayState.FADE_OUT, vol := s.vol - 1 }) ∧
       (s.vol = 0 →
          DroneSynth.dynamics s = { status := PlayState.STOPPED, vol := 0 }) ∧
       (DroneSynth.dynamics s).vol ≤ s.vol ∧
       Nat.iterate DroneSynth.dynamics (s.vol + 1) s =
         { status := PlayState.STOPPED, vol := 0 }) := by
  obtain ⟨st, v⟩ := s
  have hv2 : v ≤ 255 := hv
  constructor
  · intro hst
    have hst2 : st = PlayState.FADE_IN := hst
    subst hst2
    refine ⟨?_, ?_, ?_, ?_⟩
    · intro hlt
      have hlt2 : v < 255 := hlt
      have hne : v ≠ 255 := by omega
      simp [DroneSynth.dynamics, setVol, hne]
    · intro h255
      have h255b : v = 255 := h255
      subst h255b
      simp [DroneSynth.dynamics]
    · show v ≤ (DroneSynth.dynamics { status := PlayState.FADE_IN, vol := v }).vol
      by_cases h : v = 255
      · subst h
        simp [DroneSynth.dynamics]
      · simp [DroneSynth.dynamics, setVol, h]
    · show Nat.iterate DroneSynth.dynamics (256 - v)
          { status := PlayState.FADE_IN, vol := v } =
          { status := PlayState.PLAYING, vol := 255 }
      have h256 : 256 - v = (255 - v) + 1 := by omega
      rw [h256, Function.iterate_succ_apply']
      rw [fadeIn_ramp (255 - v) v (by omega)]
      simp [DroneSynth.dynamics]
  · intro hst
    have hst2 : st = PlayState.FADE_OUT := hst
    subst hst2
    refine ⟨?_, ?_, ?_, ?_⟩
    · intro hpos
      have hpos2 : 0 < v := hpos
      have hne : v ≠ 0 := by omega
      simp [DroneSynth.dynamics, setVol, hne]
    · intro h0
      have h0b : v = 0 := h0
      subst h0b
      simp [DroneSynth.dynamics]
    · show (DroneSynth.dynamics { status := PlayState.FADE_OUT, vol := v }).vol ≤ v
      by_cases h : v = 0
      · subst h
        simp [DroneSynth.dynamics]
      · simp [DroneSynth.dynamics, setVol, h]
    · show Nat.iterate DroneSynth.dynamics (v + 1)
          { status := PlayState.FADE_OUT, vol := v } =
          { status := PlayState.STOPPED, vol := 0 }
      rw [Function.iterate_succ_apply']
      rw [fadeOut_ramp v v rfl]
      simp [DroneSynth.dynamics]

/-- Witness for C7 at FADE_IN with volume 254 and FADE_OUT with
volume 2. -/
theorem fade_monotone_witness :
    Nat.iterate DroneSynth.dynamics 2 { status := PlayState.FADE_IN, vol := 254 } =
      { status := PlayState.PLAYING, vol := 255 } ∧
    Nat.iterate DroneSynth.dynamics 3 { status := PlayState.FADE_OUT, vol := 2 } =
      { status := PlayState.STOPPED, vol := 0 } := by
  constructor
  · exact ((fade_monotone { status := PlayState.FADE_IN, vol := 254 } (by decide)).1 rfl).2.2.2
  · exact ((fade_monotone { status := PlayState.FADE_OUT, vol := 2 } (by decide)).2 rfl).2.2.2

/-- Bounds on the edge pair computed by `calcEdges` for periods in the
range of the note table and pulse widths in [1,128]. -/
theorem calcEdgesPair_spec (p pw hi lo : Nat) (hp2 : 2 ≤ p) (hple : p ≤ 360)
    (hpw1 : 1 ≤ pw) (hpwle : pw ≤ 128)
    (heq : calcEdgesPair pw p = (hi, lo)) :
    hi + lo = p ∧ lo ≤ 255 ∧ 1 ≤ hi := by
  have hq : p * pw ≤ 128 * p := by
    calc p * pw ≤ p * 128 := Nat.mul_le_mul_left p hpwle
    _ = 128 * p := Nat.mul_comm p 128
  simp only [calcEdgesPair] at heq
  generalize hgen : p * pw = q at heq
  rw [hgen] at hq
  split_ifs at heq with h1 h2 h3
  · injection heq with e1 e2
    omega
  · injection heq with e1 e2
    omega
  · injection heq with e1 e2
    omega
  · injection heq with e1 e2
    omega

/-- The slot written by `calcEdges` carries exactly the pair computed
by `calcEdgesPair` from the section's pulse width. -/
theorem calcEdges_slot_self (s : OscSection) (t p : Nat) :
    ((calcEdges s t p).slots t).edgLen0 = (calcEdgesPair s.pW p).1 ∧
    ((calcEdges s t p).slots t).edgLen1 = (calcEdgesPair s.pW p).2 := by
  by_cases hple : p ≤ 1 <;> simp [calcEdges, hple, setSteps, updSlot]

/-- C1: for every period from the 48-entry note table and every pulse
width in [1,128], after `calcEdges` the slot's edge lengths sum to the
period, the low edge is at most 255 and the high edge is at least 1; in
particular period 360 with pulse width 128 yields the pair (180,180). -/
theorem calcEdges_table_period_bounds (s : OscSection) (t p : Nat)
    (hmem : p ∈ NotePeriods) (hpw1 : 1 ≤ s.pW) (hpwle : s.pW ≤ 128) :
    (((calcEdges s t p).slots t).edgLen0 + ((calcEdges s t p).slots t).edgLen1 = p ∧
     ((calcEdges s t p).slots t).edgLen1 ≤ 255 ∧
     1 ≤ ((calcEdges s t p).slots t).edgLen0) ∧
    calcEdgesPair 128 360 = (180, 180) := by
  have hall : ∀ x ∈ NotePeriods, 24 ≤ x ∧ x ≤ 360 := by decide
  obtain ⟨h24, h360⟩ := hall p hmem
  obtain ⟨he0, he1⟩ := calcEdges_slot_self s t p
  have hspec := calcEdgesPair_spec p s.pW (calcEdgesPair s.pW p).1
    (calcEdgesPair s.pW p).2 (by omega) h360 hpw1 hpwle rfl
  constructor
  · rw [he0, he1]
    exact hspec
  · decide

/-- Concrete section used by the witness of C1. -/
def sW1 : OscSection :=
  { numOsc := 1, curOsc := 0, ampOsc := 127, pW := 128, freeze := false,
    slots := fun _ =>
      { edgIdx := 0, edgeDC := 1, edgLen0 := 0, edgLen1 := 0,
        edgVal0 := 127, edgVal1 := 127, note := 255 } }

/-- Witness for C1 at period 360 (the table value for the lowest note)
and pulse width 128. -/
theorem calcEdges_table_period_bounds_witness :
    (((calcEdges sW1 0 360).slots 0).edgLen0 + ((calcEdges sW1 0 360).slots 0).edgLen1 = 360 ∧
     ((calcEdges sW1 0 360).slots 0).edgLen1 ≤ 255 ∧
     1 ≤ ((calcEdges sW1 0 360).slots 0).edgLen0) ∧
    calcEdgesPair 128 360 = (180, 180) :=
  calcEdges_table_period_bounds sW1 0 360 (by decide) (by decide) (by decide)

/-! ### Preservation lemmas for the section operations -/

/-- Reading back the slot just written. -/
theorem updSlot_self (f : Nat → OscSlot) (t : Nat) (sl : OscSlot) :
    updSlot f t sl t = sl := by
  simp [updSlot]

/-- Reading a slot other than the one written. -/
theorem updSlot_ne (f : Nat → OscSlot) (t : Nat) (sl : OscSlot) (i : Nat)
    (h : i ≠ t) : updSlot f t sl i = f i := by
  simp [updSlot, h]

/-- setSteps leaves the section-wide fields unchanged. -/
theorem setSteps_meta (s : OscSection) (t n0 n1 : Nat) :
    (setSteps s t n0 n1).numOsc = s.numOsc ∧ (setSteps s t n0 n1).freeze = s.freeze ∧
    (setSteps s t n0 n1).pW = s.pW ∧ (setSteps s t n0 n1).ampOsc = s.ampOsc :=
  ⟨rfl, rfl, rfl, rfl⟩

/-- setSteps leaves other slots unchanged. -/
theorem setSteps_slots_ne (s : OscSection) (t n0 n1 i : Nat) (h : i ≠ t) :
    (setSteps s t n0 n1).slots i = s.slots i := by
  simp [setSteps, updSlot, h]

/-- setSteps never changes a note. -/
theorem setSteps_note (s : OscSection) (t n0 n1 j : Nat) :
    ((setSteps s t n0 n1).slots j).note = (s.slots j).note := by
  by_cases hj : j = t <;> simp [setSteps, updSlot, hj]

/-- setSteps never changes edge indices or countdowns. -/
theorem setSteps_idx_dc (s : OscSection) (t n0 n1 j : Nat) :
    ((setSteps s t n0 n1).slots j).edgIdx = (s.slots j).edgIdx ∧
    ((setSteps s t n0 n1).slots j).edgeDC = (s.slots j).edgeDC := by
  by_cases hj : j = t <;> simp [setSteps, updSlot, hj]

/-- calcEdges leaves the section-wide fields unchanged. -/
theorem calcEdges_meta (s : OscSection) (t p : Nat) :
    (calcEdges s t p).numOsc = s.numOsc ∧ (calcEdges s t p).freeze = s.freeze ∧
    (calcEdges s t p).pW = s.pW ∧ (calcEdges s t p).ampOsc = s.ampOsc := by
  by_cases hp : p ≤ 1 <;> simp [calcEdges, hp, setSteps]

/-- calcEdges leaves other slots unchanged. -/
theorem calcEdges_slots_ne (s : OscSection) (t p i : Nat) (h : i ≠ t) :
    (calcEdges s t p).slots i = s.slots i := by
  by_cases hp : p ≤ 1 <;> simp [calcEdges, hp, setSteps, updSlot, h]

/-- calcEdges never changes a note. -/
theorem calcEdges_note (s : OscSection) (t p j : Nat) :
    ((calcEdges s t p).slots j).note = (s.slots j).note := by
  by_cases hj : j = t <;> by_cases hp : p ≤ 1 <;>
    simp [calcEdges, hp, setSteps, updSlot, hj]

/-- calcEdges never changes edge indices or countdowns. -/
theorem calcEdges_idx_dc (s : OscSection) (t p j : Nat) :
    ((calcEdges s t p).slots j).edgIdx = (s.slots j).edgIdx ∧
    ((calcEdges s t p).slots j).edgeDC = (s.slots j).edgeDC := by
  by_cases hj : j = t <;> by_cases hp : p ≤ 1 <;>
    simp [calcEdges, hp, setSteps, updSlot, hj]

/-- One pass of the phase-lock loop leaves the section-wide fields
unchanged. -/
theorem lockStep_meta (t : Nat) (s : OscSection) (i : Nat) :
    (lockStep t s i).numOsc = s.numOsc ∧ (lockStep t s i).freeze = s.freeze ∧
    (lockStep t s i).pW = s.pW ∧ (lockStep t s i).ampOsc = s.ampOsc := by
  unfold lockStep
  split_ifs <;> exact ⟨rfl, rfl, rfl, rfl⟩

/-- One pass of the phase-lock loop writes only slot `t`. -/
theorem lockStep_slots_ne (t : Nat) (s : OscSection) (i j : Nat) (hj : j ≠ t) :
    (lockStep t s i).slots j = s.slots j := by
  unfold lockStep
  split_ifs <;> simp [updSlot, hj]

/-- The phase-lock loop never changes a note. -/
theorem lockStep_note (t : Nat) (s : OscSection) (i j : Nat) :
    ((lockStep t s i).slots j).note = (s.slots j).note := by
  unfold lockStep
  split_ifs <;> by_cases hj : j = t <;> simp [updSlot, hj]

/-- The phase-lock loop never changes edge lengths or edge values. -/
theorem lockStep_len_val (t : Nat) (s : OscSection) (i j : Nat) :
    ((lockStep t s i).slots j).edgLen0 = (s.slots j).edgLen0 ∧
    ((lockStep t s i).slots j).edgLen1 = (s.slots j).edgLen1 ∧
    ((lockStep t s i).slots j).edgVal0 = (s.slots j).edgVal0 ∧
    ((lockStep t s i).slots j).edgVal1 = (s.slots j).edgVal1 := by
  unfold lockStep
  split_ifs <;> by_cases hj : j = t <;> simp [updSlot, hj]

/-- Folded phase-lock loop: section-wide fields unchanged. -/
theorem lockFold_meta (t : Nat) (L : List Nat) :
    ∀ s : OscSection,
      ((L.foldl (lockStep t) s).numOsc = s.numOsc ∧
       (L.foldl (lockStep t) s).freeze = s.freeze ∧
       (L.foldl (lockStep t) s).pW = s.pW ∧
       (L.foldl (lockStep t) s).ampOsc = s.ampOsc) := by
  induction L with
  | nil => intro s; exact ⟨rfl, rfl, rfl, rfl⟩
  | cons a L ih =>
      intro s
      rw [List.foldl_cons]
      obtain ⟨h1, h2, h3, h4⟩ := ih (lockStep t s a)
      obtain ⟨g1, g2, g3, g4⟩ := lockStep_meta t s a
      exact ⟨h1.trans g1, h2.trans g2, h3.trans g3, h4.trans g4⟩

/-- Folded phase-lock loop: slots other than `t` unchanged. -/
theorem lockFold_slots_ne (t : Nat) (L : List Nat) :
    ∀ (s : OscSection) (j : Nat), j ≠ t →
      (L.foldl (lockStep t) s).slots j = s.slots j := by
  induction L with
  | nil => intro s j _; rfl
  | cons a L ih =>
      intro s j hj
      rw [List.foldl_cons]
      rw [ih (lockStep t s a) j hj]
      exact lockStep_slots_ne t s a j hj

/-- Folded phase-lock loop: notes unchanged. -/
theorem lockFold_note (t : Nat) (L : List Nat) :
    ∀ (s : OscSection) (j : Nat),
      ((L.foldl (lockStep t) s).slots j).note = (s.slots j).note := by
  induction L with
  | nil => intro s j; rfl
  | cons a L ih =>
      intro s j
      rw [List.foldl_cons]
      rw [ih (lockStep t s a) j]
      exact lockStep_note t s a j

/-- Folded phase-lock loop: edge lengths and values unchanged. -/
theorem lockFold_len_val (t : Nat) (L : List Nat) :
    ∀ (s : OscSection) (j : Nat),
      ((L.foldl (lockStep t) s).slots j).edgLen0 = (s.slots j).edgLen0 ∧
      ((L.foldl (lockStep t) s).slots j).edgLen1 = (s.slots j).edgLen1 ∧
      ((L.foldl (lockStep t) s).slots j).edgVal0 = (s.slots j).edgVal0 ∧
      ((L.foldl (lockStep t) s).slots j).edgVal1 = (s.slots j).edgVal1 := by
  induction L with
  | nil => intro s j; exact ⟨rfl, rfl, rfl, rfl⟩
  | cons a L ih =>
      intro s j
      rw [List.foldl_cons]
      obtain ⟨h1, h2, h3, h4⟩ := ih (lockStep t s a) j
      obtain ⟨g1, g2, g3, g4⟩ := lockStep_len_val t s a j
      exact ⟨h1.trans g1, h2.trans g2, h3.trans g3, h4.trans g4⟩

/-- Folded phase-lock loop: first edge length of any slot unchanged. -/
theorem lockFold_edgLen0 (t : Nat) (L : List Nat) (s : OscSection) (j : Nat) :
    ((L.foldl (lockStep t) s).slots j).edgLen0 = (s.slots j).edgLen0 :=
  (lockFold_len_val t L s j).1

/-- Folded phase-lock loop: second edge length of any slot unchanged. -/
theorem lockFold_edgLen1 (t : Nat) (L : List Nat) (s : OscSection) (j : Nat) :
    ((L.foldl (lockStep t) s).slots j).edgLen1 = (s.slots j).edgLen1 :=
  (lockFold_len_val t L s j).2.1

/-- First edge length written by calcEdges. -/
theorem calcEdges_edgLen0 (s : OscSection) (t p : Nat) :
    ((calcEdges s t p).slots t).edgLen0 = (calcEdgesPair s.pW p).1 :=
  (calcEdges_slot_self s t p).1

/-- Second edge length written by calcEdges. -/
theorem calcEdges_edgLen1 (s : OscSection) (t p : Nat) :
    ((calcEdges s t p).slots t).edgLen1 = (calcEdgesPair s.pW p).2 :=
  (calcEdges_slot_self s t p).2

/-! ### Note wrapping -/

/-- The wrapping loop lands inside the 48-entry table. -/
theorem wrapNote_lt (n : Nat) : wrapNote n < 48 := by
  induction n using Nat.strong_induction_on with
  | _ n ih =>
      rw [wrapNote]
      split
      · omega
      · exact ih (n - 12) (by omega)

/-- The wrapping loop preserves the pitch class (residue mod 12). -/
theorem wrapNote_mod12 (n : Nat) : wrapNote n % 12 = n % 12 := by
  induction n using Nat.strong_induction_on with
  | _ n ih =>
      rw [wrapNote]
      split
      · rfl
      · have h := ih (n - 12) (by omega)
        omega

/-- Closed form of the wrapping loop: out-of-range indices fold into the
top octave of the table. -/
theorem wrapNote_closed (n : Nat) :
    wrapNote n = if n < 48 then n else 36 + (n - 36) % 12 := by
  induction n using Nat.strong_induction_on with
  | _ n ih =>
      rw [wrapNote]
      split
      · simp [*]
      · rw [ih (n - 12) (by omega)]
        split_ifs <;> omega

/-- Slot contents after a non-sentinel `setNote`: the note is the
wrapped index and the edge lengths are those computed from the table
period at the wrapped index. -/
theorem setNote_slot_content (s : OscSection) (t n : Nat)
    (hfz : s.freeze = false) (hn : n ≠ 255) :
    ((setNote s t n).slots t).note = wrapNote n ∧
    ((setNote s t n).slots t).edgLen0 =
      (calcEdgesPair s.pW (notePeriod (wrapNote n))).1 ∧
    ((setNote s t n).slots t).edgLen1 =
      (calcEdgesPair s.pW (notePeriod (wrapNote n))).2 := by
  unfold setNote
  rw [hfz]
  simp only [Bool.false_eq_true, if_false, hn, if_neg hn]
  refine ⟨?_, ?_, ?_⟩
  · rw [lockFold_note, calcEdges_note]
    simp [updSlot]
  · rw [lockFold_edgLen0, calcEdges_edgLen0]
  · rw [lockFold_edgLen1, calcEdges_edgLen1]

/-- C4: for every note index other than the sentinel 255, `setNote`
(with freeze off) wraps the index by repeated subtraction of 12 until it
is below 48, stores the wrapped note, and computes the slot's edges from
the table period at the wrapped index; the wrapped index is exactly the
mod-by-octave reduction of the input. -/
theorem setNote_octave_wrap (s : OscSection) (t n : Nat)
    (hfz : s.freeze = false) (hn : n < 255) :
    wrapNote n < 48 ∧
    wrapNote n % 12 = n % 12 ∧
    wrapNote n = (if n < 48 then n else 36 + (n - 36) % 12) ∧
    ((setNote s t n).slots t).note = wrapNote n ∧
    ((setNote s t n).slots t).edgLen0 =
      (calcEdgesPair s.pW (notePeriod (wrapNote n))).1 ∧
    ((setNote s t n).slots t).edgLen1 =
      (calcEdgesPair s.pW (notePeriod (wrapNote n))).2 := by
  obtain ⟨h1, h2, h3⟩ := setNote_slot_content s t n hfz (by omega)
  exact ⟨wrapNote_lt n, wrapNote_mod12 n, wrapNote_closed n, h1, h2, h3⟩

/-- Concrete section used by the witness of C4. -/
def sW4 : OscSection :=
  { numOsc := 2, curOsc := 0, ampOsc := 63, pW := 128, freeze := false,
    slots := fun _ =>
      { edgIdx := 0, edgeDC := 9, edgLen0 := 0, edgLen1 := 0,
        edgVal0 := 63, edgVal1 := 63, note := 255 } }

/-- Witness for C4 at note index 100, which wraps to 40. -/
theorem setNote_octave_wrap_witness :
    wrapNote 100 < 48 ∧
    wrapNote 100 % 12 = 100 % 12 ∧
    wrapNote 100 = (if 100 < 48 then 100 else 36 + (100 - 36) % 12) ∧
    ((setNote sW4 0 100).slots 0).note = wrapNote 100 ∧
    ((setNote sW4 0 100).slots 0).edgLen0 =
      (calcEdgesPair sW4.pW (notePeriod (wrapNote 100))).1 ∧
    ((setNote sW4 0 100).slots 0).edgLen1 =
      (calcEdgesPair sW4.pW (notePeriod (wrapNote 100))).2 :=
  setNote_octave_wrap sW4 0 100 rfl (by decide)

/-! ### Silenced slots and output -/

/-- Slot contents after `setNote(t, NoNote)`: zero-length edges, edge
index 0, note cleared; the low edge value is reset to `+ampOsc` by
`setSteps` (since `n0 && n1` is false) and the high edge value is left
as it was. -/
theorem setNote_noNote_slot (s : OscSection) (t : Nat) (hfz : s.freeze = false) :
    (setNote s t 255).slots t =
      { edgIdx := 0, edgeDC := (s.slots t).edgeDC, edgLen0 := 0, edgLen1 := 0,
        edgVal0 := (s.slots t).edgVal0, edgVal1 := s.ampOsc, note := 255 } := by
  simp [setNote, hfz, setSteps, updSlot]

/-- Stepping a slot never changes its edge values. -/
theorem oscStep_preserves_val (sl : OscSlot) :
    ((oscStep sl).1).edgVal0 = sl.edgVal0 ∧ ((oscStep sl).1).edgVal1 = sl.edgVal1 := by
  simp only [oscStep]
  split <;> simp

/-- A slot whose two edge values are equal contributes that value to
every tick, whatever its edge state. -/
theorem slotContrib_of_val (s : OscSection) (t : Nat) (A : Int)
    (h0 : (s.slots t).edgVal0 = A) (h1 : (s.slots t).edgVal1 = A) :
    slotContrib s t = A := by
  simp only [slotContrib, oscStep, h0, h1]
  split <;> simp

/-- A section tick never changes a slot's edge values. -/
theorem sectionTick_preserves_val (s : OscSection) (t : Nat) :
    (((sectionTick s).1).slots t).edgVal0 = (s.slots t).edgVal0 ∧
    (((sectionTick s).1).slots t).edgVal1 = (s.slots t).edgVal1 := by
  simp only [sectionTick]
  by_cases h : t < s.numOsc
  · simp only [h, if_true]
    exact oscStep_preserves_val (s.slots t)
  · simp [h]

/-- Edge values survive any number of output ticks. -/
theorem sectionRun_preserves_val (s : OscSection) (t : Nat) :
    ∀ k, ((sectionRun s k).slots t).edgVal0 = (s.slots t).edgVal0 ∧
         ((sectionRun s k).slots t).edgVal1 = (s.slots t).edgVal1 := by
  intro k
  induction k with
  | zero => exact ⟨rfl, rfl⟩
  | succ m ih =>
      unfold sectionRun at ih ⊢
      rw [Function.iterate_succ_apply']
      obtain ⟨h0, h1⟩ :=
        sectionTick_preserves_val (Nat.iterate (fun x => (sectionTick x).1) m s) t
      exact ⟨h0.trans ih.1, h1.trans ih.2⟩

/-- C5 (amended): `setNote(t, NoNote)` with freeze off zeroes both edge
lengths, resets the edge index and clears the note; a slot silenced this
way (its high edge value being `ampOsc`, as `setNumOsc` establishes for
active slots) thereafter contributes the constant `ampOsc` — a DC
offset, not zero — to every sample produced by `output()`. -/
theorem silenced_slot_constant_contribution (s : OscSection) (t : Nat)
    (hfz : s.freeze = false) (hv : (s.slots t).edgVal0 = s.ampOsc) :
    (((setNote s t 255).slots t).edgLen0 = 0 ∧
     ((setNote s t 255).slots t).edgLen1 = 0 ∧
     ((setNote s t 255).slots t).edgIdx = 0 ∧
     ((setNote s t 255).slots t).note = 255) ∧
    (∀ k, slotContrib (sectionRun (setNote s t 255) k) t = s.ampOsc) := by
  have hslot := setNote_noNote_slot s t hfz
  constructor
  · rw [hslot]
    exact ⟨rfl, rfl, rfl, rfl⟩
  · intro k
    obtain ⟨p0, p1⟩ := sectionRun_preserves_val (setNote s t 255) t k
    refine slotContrib_of_val _ t s.ampOsc ?_ ?_
    · rw [p0, hslot, hv]
    · rw [p1, hslot]

/-- Concrete section used for the C5 counterexample: one active slot,
amplitude 127. -/
def sC5 : OscSection :=
  { numOsc := 1, curOsc := 0, ampOsc := 127, pW := 128, freeze := false,
    slots := fun _ =>
      { edgIdx := 0, edgeDC := 17, edgLen0 := 180, edgLen1 := 180,
        edgVal0 := 127, edgVal1 := -127, note := 0 } }

/-- C5 counterexample: after `setNote(0, NoNote)` the slot is silenced
per the data-model part of the claim, yet the very next `output()`
sample is 127, not 0 — the silenced slot does not contribute zero. -/
theorem silenced_slot_outputs_nonzero :
    ((setNote sC5 0 255).slots 0).edgLen0 = 0 ∧
    ((setNote sC5 0 255).slots 0).edgLen1 = 0 ∧
    ((setNote sC5 0 255).slots 0).edgIdx = 0 ∧
    ((setNote sC5 0 255).slots 0).note = 255 ∧
    (sectionTick (setNote sC5 0 255)).2 = 127 ∧
    slotContrib (setNote sC5 0 255) 0 ≠ 0 := by
  decide

/-- Concrete section used by the witness of C5. -/
def sW5 : OscSection :=
  { numOsc := 1, curOsc := 0, ampOsc := 127, pW := 128, freeze := false,
    slots := fun _ =>
      { edgIdx := 1, edgeDC := 4, edgLen0 := 90, edgLen1 := 90,
        edgVal0 := 127, edgVal1 := -127, note := 7 } }

/-- Witness for C5 (amended) at a concrete section and tick 3. -/
theorem silenced_slot_constant_contribution_witness :
    ((setNote sW5 0 255).slots 0).edgLen0 = 0 ∧
    ((setNote sW5 0 255).slots 0).edgLen1 = 0 ∧
    ((setNote sW5 0 255).slots 0).edgIdx = 0 ∧
    ((setNote sW5 0 255).slots 0).note = 255 ∧
    slotContrib (sectionRun (setNote sW5 0 255) 3) 0 = 127 := by
  have h := silenced_slot_constant_contribution sW5 0 rfl rfl
  exact ⟨h.1.1, h.1.2.1, h.1.2.2.1, h.1.2.2.2, h.2 3⟩

/-! ### Phase locking -/

/-- Component projections of the fold/calcEdges meta lemmas, in
rewrite-friendly form. -/
theorem lockFold_numOsc (t : Nat) (L : List Nat) (s : OscSection) :
    (L.foldl (lockStep t) s).numOsc = s.numOsc :=
  (lockFold_meta t L s).1

/-- Freeze flag is unchanged by the folded phase-lock loop. -/
theorem lockFold_freeze (t : Nat) (L : List Nat) (s : OscSection) :
    (L.foldl (lockStep t) s).freeze = s.freeze :=
  (lockFold_meta t L s).2.1

/-- Pulse width is unchanged by the folded phase-lock loop. -/
theorem lockFold_pW (t : Nat) (L : List Nat) (s : OscSection) :
    (L.foldl (lockStep t) s).pW = s.pW :=
  (lockFold_meta t L s).2.2.1

/-- Oscillator count is unchanged by calcEdges. -/
theorem calcEdges_numOsc (s : OscSection) (t p : Nat) :
    (calcEdges s t p).numOsc = s.numOsc :=
  (calcEdges_meta s t p).1

/-- Freeze flag is unchanged by calcEdges. -/
theorem calcEdges_freeze (s : OscSection) (t p : Nat) :
    (calcEdges s t p).freeze = s.freeze :=
  (calcEdges_meta s t p).2.1

/-- Pulse width is unchanged by calcEdges. -/
theorem calcEdges_pW (s : OscSection) (t p : Nat) :
    (calcEdges s t p).pW = s.pW :=
  (calcEdges_meta s t p).2.2.1

/-- A pass of the phase-lock loop over a non-matching or self index is
the identity. -/
theorem lockStep_skip (t : Nat) (s : OscSection) (i : Nat)
    (h : i = t ∨ (s.slots t).note ≠ (s.slots i).note) :
    lockStep t s i = s := by
  unfold lockStep
  rcases h with h | h
  · rw [if_pos h]
  · by_cases hit : i = t
    · rw [if_pos hit]
    · rw [if_neg hit, if_pos h]

/-- A pass of the phase-lock loop over a matching index copies that
slot's edge state into slot `t`. -/
theorem lockStep_copy (t : Nat) (s : OscSection) (i : Nat) (hit : i ≠ t)
    (hnote : (s.slots t).note = (s.slots i).note) :
    ((lockStep t s i).slots t).edgIdx = (s.slots i).edgIdx ∧
    ((lockStep t s i).slots t).edgeDC = (s.slots i).edgeDC := by
  unfold lockStep
  rw [if_neg hit, if_neg (by simp [hnote])]
  simp [updSlot]

/-- A folded phase-lock loop in which every index skips is the
identity. -/
theorem lockFold_skip (t : Nat) :
    ∀ (L : List Nat) (s : OscSection),
      (∀ j ∈ L, j = t ∨ (s.slots t).note ≠ (s.slots j).note) →
      L.foldl (lockStep t) s = s := by
  intro L
  induction L with
  | nil => intro s _; rfl
  | cons x L ih =>
      intro s h
      rw [List.foldl_cons, lockStep_skip t s x (h x (List.mem_cons_self x L))]
      exact ih s (fun j hj => h j (List.mem_cons_of_mem x hj))

/-- Folded phase-lock loop when exactly one index `a` matches: slot `t`
ends with `a`'s edge state. -/
theorem lockFold_copy (t a : Nat) (hta : a ≠ t) :
    ∀ (L : List Nat) (s : OscSection),
      (s.slots t).note = (s.slots a).note →
      (∀ j ∈ L, j ≠ a → j = t ∨ (s.slots t).note ≠ (s.slots j).note) →
      a ∈ L →
      ((L.foldl (lockStep t) s).slots t).edgIdx = (s.slots a).edgIdx ∧
      ((L.foldl (lockStep t) s).slots t).edgeDC = (s.slots a).edgeDC := by
  intro L
  induction L with
  | nil => intro s _ _ hmem; exact absurd hmem (List.not_mem_nil a)
  | cons x L ih =>
      intro s hnote hguard hmem
      rw [List.foldl_cons]
      by_cases hxa : x = a
      · subst hxa
        have hslots_x : (lockStep t s x).slots x = s.slots x :=
          lockStep_slots_ne t s x x hta
        by_cases hmem2 : x ∈ L
        · have hnote2 : ((lockStep t s x).slots t).note = ((lockStep t s x).slots x).note := by
            rw [lockStep_note t s x t, lockStep_note t s x x]
            exact hnote
          have hguard2 : ∀ j ∈ L, j ≠ x →
              j = t ∨ ((lockStep t s x).slots t).note ≠ ((lockStep t s x).slots j).note := by
            intro j hj hjx
            rcases hguard j (List.mem_cons_of_mem x hj) hjx with h | h
            · exact Or.inl h
            · right
              rw [lockStep_note t s x t, lockStep_note t s x j]
              exact h
          obtain ⟨h1, h2⟩ := ih (lockStep t s x) hnote2 hguard2 hmem2
          rw [h1, h2, hslots_x]
          exact ⟨rfl, rfl⟩
        · have hskip : L.foldl (lockStep t) (lockStep t s x) = lockStep t s x := by
            refine lockFold_skip t L (lockStep t s x) ?_
            intro j hj
            have hja : j ≠ x := fun h => hmem2 (h ▸ hj)
            rcases hguard j (List.mem_cons_of_mem x hj) hja with h | h
            · exact Or.inl h
            · right
              rw [lockStep_note t s x t, lockStep_note t s x j]
              exact h
          rw [hskip]
          exact lockStep_copy t s x hta hnote
      · have hx := hguard x (List.mem_cons_self x L) hxa
        rw [lockStep_skip t s x hx]
        have hmem2 : a ∈ L := by
          rcases List.mem_cons.mp hmem with h | h
          · exact absurd h.symm hxa
          · exact h
        exact ih s hnote (fun j hj hja => hguard j (List.mem_cons_of_mem x hj) hja) hmem2

/-- setNote leaves the section-wide fields unchanged. -/
theorem setNote_meta (s : OscSection) (t n : Nat) :
    (setNote s t n).numOsc = s.numOsc ∧ (setNote s t n).freeze = s.freeze ∧
    (setNote s t n).pW = s.pW := by
  unfold setNote
  by_cases hf : s.freeze
  · simp [hf]
  · simp only [Bool.not_eq_true] at hf
    rw [hf]
    simp only [Bool.false_eq_true, if_false]
    by_cases hn : n = 255
    · simp [hn, setSteps]
    · simp only [if_neg hn]
      refine ⟨?_, ?_, ?_⟩
      · rw [lockFold_numOsc, calcEdges_numOsc]
      · rw [lockFold_freeze, calcEdges_freeze]
      · rw [lockFold_pW, calcEdges_pW]

/-- setNote writes only slot `t`. -/
theorem setNote_slots_ne (s : OscSection) (t n i : Nat) (hi : i ≠ t) :
    (setNote s t n).slots i = s.slots i := by
  unfold setNote
  by_cases hf : s.freeze
  · simp [hf]
  · simp only [Bool.not_eq_true] at hf
    rw [hf]
    simp only [Bool.false_eq_true, if_false]
    by_cases hn : n = 255
    · simp [hn, setSteps, updSlot, hi]
    · simp only [if_neg hn]
      rw [lockFold_slots_ne t _ _ i hi, calcEdges_slots_ne _ _ _ i hi]
      simp [updSlot, hi]

/-- If slot `a` already sounds the wrapped note and no other active
slot does, then `setNote(t, n)` ends by copying slot `a`'s edge state
into slot `t`, and leaves slot `a` untouched. -/
theorem setNote_locks_to (s : OscSection) (t a n : Nat)
    (hfz : s.freeze = false) (hn : n ≠ 255) (hta : a ≠ t) (haN : a < s.numOsc)
    (hnote_a : (s.slots a).note = wrapNote n)
    (hguard : ∀ j, j < s.numOsc → j ≠ a → j ≠ t → (s.slots j).note ≠ wrapNote n) :
    ((setNote s t n).slots t).edgIdx = (s.slots a).edgIdx ∧
    ((setNote s t n).slots t).edgeDC = (s.slots a).edgeDC ∧
    (setNote s t n).slots a = s.slots a := by
  have hslots_a : (setNote s t n).slots a = s.slots a := setNote_slots_ne s t n a hta
  have heq : setNote s t n =
      (List.range (calcEdges { s with slots := updSlot s.slots t ({ s.slots t with note := wrapNote n }) } t (notePeriod (wrapNote n))).numOsc).foldl
        (lockStep t)
        (calcEdges { s with slots := updSlot s.slots t ({ s.slots t with note := wrapNote n }) } t (notePeriod (wrapNote n))) := by
    unfold setNote
    rw [hfz]
    simp only [Bool.false_eq_true, if_false, if_neg hn]
  set S1 : OscSection :=
    { s with slots := updSlot s.slots t ({ s.slots t with note := wrapNote n }) } with hS1
  set s2 : OscSection := calcEdges S1 t (notePeriod (wrapNote n)) with hs2
  have hN : s2.numOsc = s.numOsc := by
    rw [hs2, calcEdges_numOsc]
  have hnote_t : (s2.slots t).note = wrapNote n := by
    rw [hs2, calcEdges_note, hS1]
    simp [updSlot]
  have hsa : s2.slots a = s.slots a := by
    rw [hs2, calcEdges_slots_ne S1 t (notePeriod (wrapNote n)) a hta, hS1]
    simp [updSlot, hta]
  have hnote2 : (s2.slots t).note = (s2.slots a).note := by
    rw [hnote_t, hsa, hnote_a]
  have hguard2 : ∀ j ∈ List.range s2.numOsc, j ≠ a →
      j = t ∨ (s2.slots t).note ≠ (s2.slots j).note := by
    intro j hj hja
    by_cases hjt : j = t
    · exact Or.inl hjt
    · refine Or.inr ?_
      have hjr := List.mem_range.mp hj
      have hjN : j < s.numOsc := by rw [hN] at hjr; exact hjr
      have hsj : s2.slots j = s.slots j := by
        rw [hs2, calcEdges_slots_ne S1 t (notePeriod (wrapNote n)) j hjt, hS1]
        simp [updSlot, hjt]
      rw [hnote_t, hsj]
      intro hcontra
      exact hguard j hjN hja hjt hcontra.symm
  have hmem : a ∈ List.range s2.numOsc := by
    refine List.mem_range.mpr ?_
    rw [hN]
    exact haN
  obtain ⟨h1, h2⟩ := lockFold_copy t a hta (List.range s2.numOsc) s2 hnote2 hguard2 hmem
  rw [hsa] at h1 h2
  refine ⟨?_, ?_, hslots_a⟩
  · rw [heq]
    exact h1
  · rw [heq]
    exact h2

/-- C6 (amended): if two slots `a` and `b` are set to the same
(non-sentinel) note by two `setNote` calls in the same tick, with freeze
off, and no other active slot already holds the wrapped note, then after
both calls the two slots have identical `edgIdx` and `edgeDC`.  (With a
third active slot already sounding the same note in a different phase
the property fails; see the counterexample.) -/
theorem phase_lock_two_slots (s : OscSection) (a b n : Nat)
    (hab : a ≠ b) (ha : a < s.numOsc) (hb : b < s.numOsc)
    (hfz : s.freeze = false) (hn : n < 255)
    (hothers : ∀ i, i < s.numOsc → i ≠ a → i ≠ b → (s.slots i).note ≠ wrapNote n) :
    ((setNote (setNote s a n) b n).slots a).edgIdx =
      ((setNote (setNote s a n) b n).slots b).edgIdx ∧
    ((setNote (setNote s a n) b n).slots a).edgeDC =
      ((setNote (setNote s a n) b n).slots b).edgeDC := by
  have hn2 : n ≠ 255 := by omega
  obtain ⟨m1, m2, m3⟩ := setNote_meta s a n
  have hfz1 : (setNote s a n).freeze = false := m2.trans hfz
  have haN1 : a < (setNote s a n).numOsc := by rw [m1]; exact ha
  have hnote_a1 : ((setNote s a n).slots a).note = wrapNote n :=
    (setNote_slot_content s a n hfz hn2).1
  have hguard1 : ∀ j, j < (setNote s a n).numOsc → j ≠ a → j ≠ b →
      ((setNote s a n).slots j).note ≠ wrapNote n := by
    intro j hj hja hjb
    rw [setNote_slots_ne s a n j hja]
    rw [m1] at hj
    exact hothers j hj hja hjb
  obtain ⟨h1, h2, h3⟩ :=
    setNote_locks_to (setNote s a n) b a n hfz1 hn2 hab haN1 hnote_a1 hguard1
  constructor
  · rw [h1, h3]
  · rw [h2, h3]

/-- Concrete section for the C6 counterexample: three active slots;
slots 1 and 2 already sound note 0 with different edge countdowns
(5 and 7), as `setPhase` can arrange. -/
def sC6 : OscSection :=
  { numOsc := 3, curOsc := 0, ampOsc := 42, pW := 128, freeze := false,
    slots := fun i =>
      if i = 1 then
        { edgIdx := 0, edgeDC := 5, edgLen0 := 180, edgLen1 := 180,
          edgVal0 := 42, edgVal1 := -42, note := 0 }
      else if i = 2 then
        { edgIdx := 0, edgeDC := 7, edgLen0 := 180, edgLen1 := 180,
          edgVal0 := 42, edgVal1 := -42, note := 0 }
      else
        { edgIdx := 0, edgeDC := 17, edgLen0 := 0, edgLen1 := 0,
          edgVal0 := 42, edgVal1 := 42, note := 255 } }

/-- C6 counterexample: slots 0 and 2 are both set to note 0 in the same
tick (freeze off, note not the sentinel), yet they end with edge
countdowns 7 and 5 respectively — the phase-lock loop copied each from
a different slot because a third slot (slot 1) also sounds note 0 in a
different phase. -/
theorem phase_lock_third_slot_counterexample :
    ((setNote (setNote sC6 0 0) 2 0).slots 0).edgeDC = 7 ∧
    ((setNote (setNote sC6 0 0) 2 0).slots 2).edgeDC = 5 ∧
    ¬(((setNote (setNote sC6 0 0) 2 0).slots 0).edgIdx =
        ((setNote (setNote sC6 0 0) 2 0).slots 2).edgIdx ∧
      ((setNote (setNote sC6 0 0) 2 0).slots 0).edgeDC =
        ((setNote (setNote sC6 0 0) 2 0).slots 2).edgeDC) := by
  have hw : wrapNote 0 = 0 := by
    rw [wrapNote]
    simp
  simp only [setNote, hw]
  decide

/-- Concrete section for the C6 witness: two active slots, no other
slot sounding the note. -/
def sW6 : OscSection :=
  { numOsc := 2, curOsc := 0, ampOsc := 63, pW := 128, freeze := false,
    slots := fun i =>
      if i = 1 then
        { edgIdx := 1, edgeDC := 33, edgLen0 := 90, edgLen1 := 90,
          edgVal0 := 63, edgVal1 := -63, note := 255 }
      else
        { edgIdx := 0, edgeDC := 17, edgLen0 := 0, edgLen1 := 0,
          edgVal0 := 63, edgVal1 := 63, note := 255 } }

/-- Witness for C6 (amended) with slots 0 and 1 set to note 5. -/
theorem phase_lock_two_slots_witness :
    ((setNote (setNote sW6 0 5) 1 5).slots 0).edgIdx =
      ((setNote (setNote sW6 0 5) 1 5).slots 1).edgIdx ∧
    ((setNote (setNote sW6 0 5) 1 5).slots 0).edgeDC =
      ((setNote (setNote sW6 0 5) 1 5).slots 1).edgeDC :=
  phase_lock_two_slots sW6 0 1 5 (by decide) (by decide) (by decide) rfl (by decide)
    (by
      intro i hi h0 h1
      have hi2 : i < 2 := hi
      omega)

/-! ### setPhase: termination and phase semantics -/

/-- With period 0 the normalization loop of setPhase never terminates:
no amount of fuel produces a result. -/
theorem phaseLoopF_zero_period (fuel phase : Nat) :
    phaseLoopF fuel 0 phase = none := by
  induction fuel generalizing phase with
  | zero =>
      simp [phaseLoopF]
  | succ f ih =>
      simp only [phaseLoopF, Nat.not_lt_zero, if_false, Nat.sub_zero]
      exact ih phase

/-- With a positive period and enough fuel the normalization loop
computes the remainder modulo the period. -/
theorem phaseLoopF_mod (period : Nat) (hp : 0 < period) :
    ∀ fuel phase, phase ≤ fuel →
      phaseLoopF fuel period phase = some (phase % period) := by
  intro fuel
  induction fuel with
  | zero =>
      intro phase h
      have h0 : phase = 0 := by omega
      subst h0
      simp [phaseLoopF, hp]
  | succ f ih =>
      intro phase h
      by_cases hlt : phase < period
      · simp [phaseLoopF, hlt, Nat.mod_eq_of_lt hlt]
      · have hge : period ≤ phase := by omega
        simp only [phaseLoopF, if_neg hlt]
        rw [ih (phase - period) (by omega)]
        rw [Nat.mod_eq_sub_mod hge]

/-- Walking a slot from the start of its high edge: after `k` samples
(with `k` inside the period) the edge state is high with countdown
`n0 - k` while `k < n0`, and low with countdown `n0 + n1 - k`
afterwards.  Edge lengths must be byte values with a nonzero high edge,
as `calcEdges` guarantees. -/
theorem iterSlot_startSlot (n0 n1 : Nat) (h1 : 1 ≤ n0) (hb0 : n0 ≤ 255)
    (hb1 : n1 ≤ 255) :
    ∀ k, k < n0 + n1 →
      iterSlot (startSlot n0 n1) k =
        { startSlot n0 n1 with
          edgIdx := if k < n0 then 0 else 1
          edgeDC := if k < n0 then n0 - k else n0 + n1 - k } := by
  intro k
  induction k with
  | zero =>
      intro _
      have hpos : 0 < n0 := h1
      simp [iterSlot, startSlot, hpos]
  | succ k ih =>
      intro hk
      have hrec := ih (by omega)
      unfold iterSlot at hrec ⊢
      rw [Function.iterate_succ_apply', hrec]
      by_cases hklt : k < n0
      · by_cases hck : k + 1 < n0
        · have hdc : ((n0 - k) + 255) % 256 = n0 - k - 1 := by omega
          have hne : n0 - k - 1 ≠ 0 := by omega
          simp only [if_pos hklt, if_pos hck, oscStep, startSlot, hdc, if_neg hne]
          simp [OscSlot.mk.injEq]
          omega
        · have hkeq : k + 1 = n0 := by omega
          have hdc1 : n0 - k = 1 := by omega
          have hdc : ((n0 - k) + 255) % 256 = 0 := by omega
          simp only [if_pos hklt, if_neg hck, oscStep, startSlot, hdc, if_pos rfl]
          simp [OscSlot.mk.injEq]
          omega
      · have hck : ¬ (k + 1 < n0) := by omega
        have h2 : 2 ≤ n0 + n1 - k := by omega
        have hdc : ((n0 + n1 - k) + 255) % 256 = n0 + n1 - k - 1 := by omega
        have hne : n0 + n1 - k - 1 ≠ 0 := by omega
        simp only [if_neg hklt, if_neg hck, oscStep, startSlot, hdc, if_neg hne]
        simp [OscSlot.mk.injEq]
        omega

/-- C10: for byte edge lengths with a nonzero high edge (as `calcEdges`
produces for every sounding slot) and any phase, the `setPhase`
normalization loop terminates with fuel `phase` and installs exactly the
edge state reached after `phase mod period` samples from edge start;
with period 0 (a silenced slot) the loop `while (phase >= period)
phase -= period` never terminates, for any phase and any fuel. -/
theorem setPhase_phase_semantics :
    (∀ n0 n1 phase fuel, 1 ≤ n0 → n0 ≤ 255 → n1 ≤ 255 → phase ≤ fuel →
       setPhaseResult n0 n1 phase fuel =
         some ((iterSlot (startSlot n0 n1) (phase % (n0 + n1))).edgIdx,
               (iterSlot (startSlot n0 n1) (phase % (n0 + n1))).edgeDC)) ∧
    (∀ fuel phase, phaseLoopF fuel 0 phase = none) := by
  constructor
  · intro n0 n1 phase fuel h1 hb0 hb1 hf
    have hp : 0 < n0 + n1 := by omega
    have hloop := phaseLoopF_mod (n0 + n1) hp fuel phase hf
    unfold setPhaseResult
    rw [hloop]
    have hmod : phase % (n0 + n1) < n0 + n1 := Nat.mod_lt phase hp
    rw [iterSlot_startSlot n0 n1 h1 hb0 hb1 (phase % (n0 + n1)) hmod]
    by_cases hlt : phase % (n0 + n1) < n0
    · simp [hlt]
    · simp [hlt]
  · exact fun fuel phase => phaseLoopF_zero_period fuel phase

/-- Witness for C10: a slot with edges (180,180) and phase 500
(500 mod 360 = 140, inside the high edge, countdown 40), and the
period-0 loop yielding no result. -/
theorem setPhase_phase_semantics_witness :
    setPhaseResult 180 180 500 500 = some (0, 40) ∧
    phaseLoopF 7 0 3 = none := by
  constructor
  · have h := setPhase_phase_semantics.1 180 180 500 500 (by decide) (by decide)
      (by decide) (by decide)
    rw [h]
    decide
  · exact setPhase_phase_semantics.2 7 3
